import Mathlib

/-!
Verification of the waste-management-system repository (two Streamlit
variants: `src/app.py`, the full tracker, and `src/streamlit_app.py`, the
AI-assisted tracker).  The Python sources are shallowly embedded below:
strings are lists of characters, Python floats are modelled as rationals,
and the Streamlit session state is an explicit `Store` value threaded
through the handlers.
-/

/-- Strings are modelled as lists of characters. -/
abbrev Str := List Char

/-- Coerce a Lean string literal into the model's string type. -/
def str (s : String) : Str := s.data

/-- Python `str.strip` whitespace test (ASCII whitespace, which covers every
character occurring in this program's data). -/
def pySpace (c : Char) : Bool :=
  c = ' ' ∨ c = '\t' ∨ c = '\n' ∨ c = '\r' ∨ c = '\x0b' ∨ c = '\x0c'

/-- Python `str.strip()`: drop whitespace from both ends. -/
def pyStrip (s : Str) : Str :=
  ((s.dropWhile pySpace).reverse.dropWhile pySpace).reverse

/-- Python `str.lower()` restricted to ASCII letters (the only letters this
program compares). -/
def pyLower (s : Str) : Str := s.map Char.toLower

/-- Python `str.rstrip(c)` for a single character `c`: drop every trailing
occurrence of `c`. -/
def rstripChar (c : Char) (s : Str) : Str :=
  (s.reverse.dropWhile (fun x => x = c)).reverse

/-- Python `str.split(sep)` for a one-character separator: split on every
occurrence, keeping empty pieces; the result is always nonempty
(`''.split(':') == ['']`). -/
def splitOnChar (c : Char) : Str → List Str
  | [] => [[]]
  | x :: xs =>
    if x = c then [] :: splitOnChar c xs
    else
      match splitOnChar c xs with
      | r :: rs => (x :: r) :: rs
      | [] => [[x]]

/-- Python `needle in haystack` substring containment. -/
def containsSub (hay needle : Str) : Bool :=
  match hay with
  | [] => needle.isEmpty
  | _ :: t => needle.isPrefixOf hay || containsSub t needle

/-- Value of an ASCII digit. -/
def digitVal (c : Char) : Nat := c.toNat - 48

/-- Digit groups of a Python integer literal body: `digit+ ('_' digit+)*`
(Python's `int` accepts single underscores between digits). `acc` holds the
value of the digits read so far; the first digit has already been read. -/
def digitsURest (acc : Nat) : Str → Option Nat
  | [] => some acc
  | '_' :: c :: rest =>
    if c.isDigit then digitsURest (acc * 10 + digitVal c) rest else none
  | c :: rest =>
    if c.isDigit then digitsURest (acc * 10 + digitVal c) rest else none

/-- Parse a nonempty digit group (with optional inner underscores). -/
def digitsU : Str → Option Nat
  | c :: rest => if c.isDigit then digitsURest (digitVal c) rest else none
  | [] => none

/-- Python `int(s)` on an ASCII string: surrounding whitespace is ignored, an
optional sign precedes the digits; returns `none` where Python raises
`ValueError`. -/
def pyParseInt (s : Str) : Option Int :=
  match pyStrip s with
  | '+' :: rest => (digitsU rest).map Int.ofNat
  | '-' :: rest => (digitsU rest).map (fun n => -(Int.ofNat n))
  | rest => (digitsU rest).map Int.ofNat

/-- Decimal digits of a natural number, fuel-driven so that it reduces in the
kernel; `natStr` supplies enough fuel for any input. -/
def natStrAux : Nat → Nat → Str
  | 0, _ => []
  | fuel + 1, n =>
    if n < 10 then [Char.ofNat (48 + n)]
    else natStrAux fuel (n / 10) ++ [Char.ofNat (48 + n % 10)]

/-- Python `str(n)` for a natural number. -/
def natStr (n : Nat) : Str := natStrAux (n + 1) n

/-- Python `str(i)` for an integer. -/
def intStr (i : Int) : Str :=
  if i < 0 then '-' :: natStr i.natAbs else natStr i.natAbs

/-- Python `sep.join(items)`. -/
def joinSep (sep : Str) : List Str → Str
  | [] => []
  | [x] => x
  | x :: xs => x ++ sep ++ joinSep sep xs

/-- The six canonical waste-category keys, in the fixed dictionary insertion
order shared by `WASTE_CATEGORIES` in `src/app.py` and `waste_types` in
`src/streamlit_app.py`. -/
def canonicalKeys : List Str :=
  [str "plastic", str "organic", str "reusable",
   str "hazardous", str "electronic", str "mixed"]

example : pyStrip (str "  87%  ") = str "87%" := by decide
example : splitOnChar ':' (str "A: b: c") = [str "A", str " b", str " c"] := by decide
example : splitOnChar ',' (str "") = [str ""] := by decide
example : pyParseInt (str "87") = some 87 := by decide
example : pyParseInt (str "high") = none := by decide
example : pyParseInt (str " -8_7 ") = some (-87) := by decide
example : pyParseInt (str "8_") = none := by decide
example : natStr 1204 = str "1204" := by decide
example : containsSub (str "xCONFIDENCE: 3") (str "CONFIDENCE:") = true := by decide
example : (0 : ℚ) < 5/2 := by norm_num

/-!
## AI response parsing (`classify_waste_from_image`, src/streamlit_app.py:60-85)
-/

/-- The transient classification triple built by `classify_waste_from_image`:
`result = {'waste_type': 'mixed', 'confidence': 0, 'items': []}`. -/
structure AIResult where
  waste_type : Str
  confidence : Int
  items : List Str
deriving DecidableEq, Repr

/-- Python `line.split(':')[1].strip()` — the raw field extraction shared by all
three marker branches of the response parser.  When the line has no colon the
index would be out of range; every reachable call site guarantees a colon
because the matched marker itself contains one, so the default `[]` is never
used. -/
def fieldRaw (line : Str) : Str :=
  pyStrip ((splitOnChar ':' line).getD 1 [])

/-- One iteration of the `for line in lines` loop of
`classify_waste_from_image` (src/streamlit_app.py:70-83). -/
def parseLine (r : AIResult) (line : Str) : AIResult :=
  if containsSub line (str "WASTE_TYPE:") then
    let wt := pyLower (fieldRaw line)
    if canonicalKeys.contains wt then { r with waste_type := wt } else r
  else if containsSub line (str "CONFIDENCE:") then
    match pyParseInt (rstripChar '%' (fieldRaw line)) with
    | some n => { r with confidence := n }
    | none => { r with confidence := 50 }
  else if containsSub line (str "ITEMS:") then
    { r with items := (splitOnChar ',' (fieldRaw line)).map pyStrip }
  else r

/-- The reply text `response_text.strip().split('\n')` folded through the parsing loop,
starting from the defaults `('mixed', 0, [])`
(src/streamlit_app.py:61-84). -/
def parseResponse (text : String) : AIResult :=
  ((splitOnChar '\n' (pyStrip text.data)).foldl parseLine
    { waste_type := str "mixed", confidence := 0, items := [] })

/-- The confidence value a single reply line assigns, if any: `none` when the
line leaves `result['confidence']` untouched.  Mirrors the branch structure of
`parseLine`. -/
def lineConf (line : Str) : Option Int :=
  if containsSub line (str "WASTE_TYPE:") then none
  else if containsSub line (str "CONFIDENCE:") then
    match pyParseInt (rstripChar '%' (fieldRaw line)) with
    | some n => some n
    | none => some 50
  else none

/-- The description synthesized by the AI "Add to Log" handler:
`f"{', '.join(items)} (AI detected, {confidence}% confidence)"`
(src/streamlit_app.py:161). -/
def aiDescription (items : List Str) (confidence : Int) : Str :=
  joinSep (str ", ") items ++ str " (AI detected, " ++ intStr confidence
    ++ str "% confidence)"

/-- The bullet lines rendered for the detected items:
`st.write(f"  📄 {item}")` for each item (src/streamlit_app.py:153-154). -/
def itemBullets (items : List Str) : List Str :=
  items.map (fun it => str "  📄 " ++ it)

example :
    parseResponse "WASTE_TYPE: Electronic\nCONFIDENCE: 87%\nITEMS: phone, charger"
      = { waste_type := str "electronic", confidence := 87,
          items := [str "phone", str "charger"] } := by decide
example : (parseResponse "WASTE_TYPE: plastic\nITEMS: cup").confidence = 0 := by decide
example : (parseResponse "CONFIDENCE: high").confidence = 50 := by decide
example : (parseResponse "WASTE_TYPE: metal").waste_type = str "mixed" := by decide
example : (parseResponse "CONFIDENCE: 150").confidence = 150 := by decide
example : (parseResponse "ITEMS:").items = [[]] := by decide
example : (parseResponse "ITEMS: phone: old, charger").items = [str "phone"] := by decide

/-!
## Session Store (`st.session_state.waste_log` / `st.session_state.stats`)
-/

/-- One waste-log entry, the dict built by the Add Waste handler
(src/app.py:122-128).  The AI variant's entries carry no `timestamp` key;
they are modelled with the empty string there, which no claim inspects. -/
structure Entry where
  timestamp : Str
  category : Str
  quantity : ℚ
  description : Str
  location : Str
deriving DecidableEq, Repr

/-- The per-session state: the pair
(`st.session_state.waste_log`, `st.session_state.stats`).  The stats dict
maps the six canonical keys to running totals; it is modelled as a total
function that the program only ever reads at, and writes at, canonical
keys. -/
structure Store where
  log : List Entry
  stats : Str → ℚ

/-- Fresh session state: empty log, all totals zero
(src/app.py:36-46, src/streamlit_app.py:36-39). -/
def initStore : Store := { log := [], stats := fun _ => 0 }

/-- The single add action shared by every writer:
`st.session_state.waste_log.append(item)` immediately followed by
`st.session_state.stats[cat] += quantity`
(src/app.py:129-130, src/streamlit_app.py:164-165 and 187-188). -/
def record (s : Store) (e : Entry) : Store :=
  { log := s.log ++ [e],
    stats := fun k => if k = e.category then s.stats k + e.quantity else s.stats k }

/-- Run a sequence of add actions from a fresh session. -/
def runOps (ops : List Entry) : Store := ops.foldl record initStore

/-- A valid add input: canonical category, positive quantity. -/
def ValidEntry (e : Entry) : Prop :=
  e.category ∈ canonicalKeys ∧ 0 < e.quantity

/-- Sum of the quantities of the log entries with the given category. -/
def catSum (k : Str) (log : List Entry) : ℚ :=
  ((log.filter (fun e => decide (e.category = k))).map Entry.quantity).sum

/-- Python `sum(st.session_state.stats.values())` (src/app.py:244,
src/streamlit_app.py:197). -/
def totalStats (s : Store) : ℚ := (canonicalKeys.map s.stats).sum

/-!
## Add-Waste flows (widget bounds + handler)
-/

/-- The error taxonomy of the specification that is reachable here. -/
inductive AppError where
  | invalidInput
deriving DecidableEq, Repr

/-- The full variant's Add Waste interaction (src/app.py:110-130): the
quantity widget `st.number_input("Quantity (kg)", min_value=0.1,
max_value=1000.0, ...)` only yields values inside its bounds, and the
selectbox only yields canonical keys, so a submission outside those bounds
cannot occur; such inputs are represented as `InvalidInput`.  A submission
inside the bounds runs the unguarded handler `record`. -/
def addWasteFull (s : Store) (ts cat : Str) (q : ℚ) (desc loc : Str) :
    Except AppError Store :=
  if 1/10 ≤ q ∧ q ≤ 1000 ∧ cat ∈ canonicalKeys then
    .ok (record s { timestamp := ts, category := cat, quantity := q,
                    description := desc, location := loc })
  else
    .error .invalidInput

/-- The AI variant's Add Waste interaction (src/streamlit_app.py:171-188):
same shape, but its quantity widget has `min_value=0.1` and no maximum. -/
def addWasteAI (s : Store) (cat : Str) (q : ℚ) (desc loc : Str) :
    Except AppError Store :=
  if 1/10 ≤ q ∧ cat ∈ canonicalKeys then
    .ok (record s { timestamp := [], category := cat, quantity := q,
                    description := desc, location := loc })
  else
    .error .invalidInput

/-- The session state after a full-variant Add Waste interaction: unchanged
when the submission is impossible/rejected. -/
def afterAddFull (s : Store) (ts cat : Str) (q : ℚ) (desc loc : Str) : Store :=
  match addWasteFull s ts cat q desc loc with
  | .ok s2 => s2
  | .error _ => s

/-- The entry committed by the AI page's "Add to Log" button
(src/streamlit_app.py:157-163): quantity fixed at `1.0`, location fixed at
`'AI Recognized'`, description synthesized from the classification. -/
def aiEntry (r : AIResult) : Entry :=
  { timestamp := [], category := r.waste_type, quantity := 1,
    description := aiDescription r.items r.confidence,
    location := str "AI Recognized" }

/-!
## Statistics and Reports pages (src/app.py:150-209, 233-277)
-/

/-- What the View Statistics page renders: the empty-state banner when the
log is empty (src/app.py:154-155), otherwise the six per-category metrics,
the positive-total chart data, and the total metric. -/
inductive StatsRender where
  | empty
  | content (metrics : List (Str × ℚ)) (chart : List (Str × ℚ)) (total : ℚ)
deriving Repr

/-- src/app.py:150-192 (View Statistics).  `chart_data` keeps only the
categories with positive quantity, and `total` sums the filtered chart
data. -/
def statsView (s : Store) : StatsRender :=
  if s.log.length = 0 then .empty
  else
    let chart := (canonicalKeys.map (fun k => (k, s.stats k))).filter
      (fun p => decide (0 < p.2))
    .content (canonicalKeys.map (fun k => (k, s.stats k))) chart
      ((chart.map Prod.snd).sum)

/-- Python `max(st.session_state.stats, key=st.session_state.stats.get)`
(src/app.py:250): iterate the keys in dict insertion order keeping the
current best, replacing only on a strictly larger total — the
first-encountered maximum wins. -/
def firstMaxAux (f : Str → ℚ) (best : Str) : List Str → Str
  | [] => best
  | k :: ks => firstMaxAux f (if f best < f k then k else best) ks

/-- The Reports page's most-common category over the six canonical keys. -/
def most_common (f : Str → ℚ) : Str :=
  firstMaxAux f (str "plastic")
    [str "organic", str "reusable", str "hazardous", str "electronic", str "mixed"]

/-- The Category-wise Analysis rows (src/app.py:265-273): one row
`(category, amount, percentage)` per canonical key with a positive total, in
dict order, with `percentage = amount / total * 100`. -/
def reportRows (s : Store) : List (Str × ℚ × ℚ) :=
  canonicalKeys.filterMap (fun k =>
    if 0 < s.stats k then some (k, s.stats k, s.stats k / totalStats s * 100)
    else none)

/-- What the Reports page renders: the empty-state banner when the log is
empty (src/app.py:237-238), otherwise the summary metrics and analysis
table. -/
inductive ReportsRender where
  | empty
  | report (total : ℚ) (entryCount : Nat) (mostCommon : Str)
      (rows : List (Str × ℚ × ℚ))
deriving Repr

/-- src/app.py:233-277 (Reports). -/
def reportsView (s : Store) : ReportsRender :=
  if s.log.length = 0 then .empty
  else .report (totalStats s) s.log.length (most_common s.stats) (reportRows s)

/-- The spec-side maximum total: the running maximum of the six totals in
canonical order. -/
def maxTotal (f : Str → ℚ) : ℚ :=
  [str "organic", str "reusable", str "hazardous", str "electronic", str "mixed"].foldl
    (fun a k => max a (f k)) (f (str "plastic"))

/-- The claim's description of the most-common category: the first key in
canonical order whose total equals the maximum total. -/
def claimMostCommon (f : Str → ℚ) : Option Str :=
  canonicalKeys.find? (fun k => decide (f k = maxTotal f))

/-!
## CSV export (src/app.py:202-209, `log_df.to_csv(index=False)`)

`pandas.DataFrame.to_csv` with its defaults emits the column names as a
header line, one line per row, fields separated by commas, each line
terminated by a newline, minimal quoting: a field is wrapped in double
quotes exactly when it contains a comma, a double quote, or a line break,
and embedded double quotes are doubled.
-/

/-- Minimal-quoting test. -/
def needsQuote (f : Str) : Bool :=
  f.any (fun c => c = ',' ∨ c = '"' ∨ c = '\n' ∨ c = '\r')

/-- Double every embedded double quote. -/
def escQuotes (f : Str) : Str :=
  f.flatMap (fun c => if c = '"' then ['"', '"'] else [c])

/-- Serialize one field with minimal quoting. -/
def serField (f : Str) : Str :=
  if needsQuote f then '"' :: escQuotes f ++ ['"'] else f

/-- Serialize one row: fields joined by commas. -/
def serRow (r : List Str) : Str := joinSep [','] (r.map serField)

/-- Serialize a CSV document: each row on its own newline-terminated line. -/
def serCsv (rows : List (List Str)) : Str :=
  rows.flatMap (fun r => serRow r ++ ['\n'])

/-- Decimal digits of the fraction `r / d` (with `r < d`): long division,
emitting at least one digit and stopping at a zero remainder.  The fuel
mirrors `repr(float)`'s 17-significant-digit limit; every quantity in this
program has a short exact decimal expansion, so the fuel is never exhausted
on reachable data. -/
def fracStr : Nat → Nat → Nat → Str
  | 0, _, _ => []
  | fuel + 1, r, d =>
    Char.ofNat (48 + r * 10 / d)
      :: (if r * 10 % d = 0 then [] else fracStr fuel (r * 10 % d) d)

/-- Model of Python's `str(float)` for the quantities handled here: sign,
integer part, decimal point, fractional digits (at least one, as in
`str(2.0) == '2.0'`). -/
def qRepr (q : ℚ) : Str :=
  (if q.num < 0 then ['-'] else [])
    ++ natStr (q.num.natAbs / q.den) ++ '.' :: fracStr 17 (q.num.natAbs % q.den) q.den

/-- The CSV header, i.e. the `waste_item` dict's key order
(src/app.py:122-128). -/
def headerRow : List Str :=
  [str "timestamp", str "category", str "quantity", str "description", str "location"]

/-- The CSV row of one log entry. -/
def entryRow (e : Entry) : List Str :=
  [e.timestamp, e.category, qRepr e.quantity, e.description, e.location]

/-- The full CSV payload offered for download as `waste_log.csv`. -/
def exportCsv (entries : List Entry) : Str :=
  serCsv (headerRow :: entries.map entryRow)

/-- A character that does not terminate an unquoted field. -/
def notStop (c : Char) : Bool := ¬(c = ',' ∨ c = '\n')

/-- Standard CSV parsing of a quoted field body (opening quote already
consumed): a doubled quote is a literal quote, a lone quote closes the
field; returns the field and the unconsumed remainder. -/
def parseQF : Str → Str × Str
  | [] => ([], [])
  | [c] => if c = '"' then ([], []) else ([c], [])
  | c :: d :: rest =>
    if c = '"' then
      if d = '"' then
        let p := parseQF rest
        ('"' :: p.1, p.2)
      else ([], d :: rest)
    else
      let p := parseQF (d :: rest)
      (c :: p.1, p.2)

/-- Parse one field: quoted if it opens with a quote, otherwise everything
up to the next comma or newline. -/
def parseFld (cs : Str) : Str × Str :=
  if cs.head? = some '"' then parseQF cs.tail
  else (cs.takeWhile notStop, cs.dropWhile notStop)

/-- Parse one record: fields separated by commas, terminated by a newline or
the end of input.  Fuel bounds the number of fields; `parseCsv` supplies
enough for any well-formed document. -/
def parseRowF : Nat → Str → List Str × Str
  | 0, cs => ([], cs)
  | fuel + 1, cs =>
    let p := parseFld cs
    match p.2 with
    | ',' :: rest2 => let r := parseRowF fuel rest2; (p.1 :: r.1, r.2)
    | '\n' :: rest2 => ([p.1], rest2)
    | _ => ([p.1], [])

/-- Parse a CSV document into records. -/
def parseCsvF : Nat → Str → List (List Str)
  | 0, _ => []
  | fuel + 1, cs =>
    if cs.isEmpty then []
    else
      let p := parseRowF (fuel + 1) cs
      p.1 :: parseCsvF fuel p.2

/-- Standard CSV parsing with comma-splitting and quote-unescaping. -/
def parseCsv (cs : Str) : List (List Str) := parseCsvF (cs.length + 1) cs

example : qRepr 2 = str "2.0" := by decide
example : qRepr (Rat.divInt 5 2) = str "2.5" := by decide
example : serRow [str "a,b", str "c\"d", str "e"] = str "\"a,b\",\"c\"\"d\",e" := by decide
example :
    parseCsv (str "a,\"b,c\"\nd,e\n") = [[str "a", str "b,c"], [str "d", str "e"]] := by
  decide

/-!
## Store invariant lemmas
-/

theorem catSum_append (k : Str) (l : List Entry) (e : Entry) :
    catSum k (l ++ [e]) = catSum k l + (if e.category = k then e.quantity else 0) := by
  by_cases h : e.category = k <;>
    simp [catSum, List.filter_append, h]

theorem foldl_record_stats (ops : List Entry) :
    ∀ s : Store, (∀ k, s.stats k = catSum k s.log) →
      ∀ k, (ops.foldl record s).stats k = catSum k (ops.foldl record s).log := by
  induction ops with
  | nil => intro s h k; exact h k
  | cons e rest ih =>
    intro s h k
    refine ih (record s e) ?_ k
    intro k2
    rw [show (record s e).log = s.log ++ [e] from rfl, catSum_append, ← h k2]
    by_cases hk : k2 = e.category
    · simp [record, hk]
    · have : ¬ e.category = k2 := fun hc => hk hc.symm
      simp [record, hk, this]

theorem foldl_record_length (ops : List Entry) :
    ∀ s : Store, (ops.foldl record s).log.length = s.log.length + ops.length := by
  induction ops with
  | nil => intro s; simp
  | cons e rest ih =>
    intro s
    rw [List.foldl_cons, ih]
    simp [record]
    omega

/-- C1: for every sequence of record operations with valid inputs, after each
operation (prefix of the sequence) the aggregate total for every category
equals the sum of the quantities of the log entries with that category, and
the log length equals the number of operations performed; a single add action
(`record`) updates log and aggregates together. -/
theorem c1_store_invariant (ops : List Entry)
    (_hv : ∀ e ∈ ops, ValidEntry e) (n : Nat) (k : Str) :
    (runOps (ops.take n)).stats k = catSum k (runOps (ops.take n)).log ∧
    (runOps (ops.take n)).log.length = (ops.take n).length := by
  constructor
  · exact foldl_record_stats (ops.take n) initStore
      (fun k2 => by simp [initStore, catSum]) k
  · rw [runOps, foldl_record_length]
    simp [initStore]

/-- Demonstration operations: 2.5 kg then 1.0 kg of organic waste. -/
def demoOps : List Entry :=
  [{ timestamp := str "2024-01-01 10:00:00", category := str "organic",
     quantity := Rat.divInt 5 2, description := [], location := [] },
   { timestamp := str "2024-01-01 11:00:00", category := str "organic",
     quantity := 1, description := [], location := [] }]

theorem c1_store_invariant_witness :
    (runOps (demoOps.take 2)).stats (str "organic")
        = catSum (str "organic") (runOps (demoOps.take 2)).log ∧
    (runOps (demoOps.take 2)).log.length = (demoOps.take 2).length :=
  c1_store_invariant demoOps
    (by
      intro e he
      simp [demoOps] at he
      rcases he with h | h <;> subst h <;>
        exact ⟨by decide, by norm_num [Rat.divInt]⟩)
    2 (str "organic")

/-!
## Claim C2: record validation
-/

/-- C2 counterexample: the claim says every call with a positive quantity and
a canonical category succeeds, but a positive quantity below the input
control's minimum of 0.1 (here 0.05) can never be submitted — the interaction
is rejected and the session state is unchanged. -/
theorem c2_counterexample :
    (0 : ℚ) < 1/20 ∧ str "plastic" ∈ canonicalKeys ∧
    addWasteFull initStore (str "t") (str "plastic") (1/20) [] []
        = .error .invalidInput ∧
    afterAddFull initStore (str "t") (str "plastic") (1/20) [] [] = initStore := by
  have hq : ¬((1 : ℚ)/10 ≤ 1/20 ∧ (1 : ℚ)/20 ≤ 1000 ∧ str "plastic" ∈ canonicalKeys) := by
    rintro ⟨h, -⟩
    norm_num at h
  refine ⟨by norm_num, by decide, ?_, ?_⟩
  · rw [addWasteFull, if_neg hq]
  · rw [afterAddFull, addWasteFull, if_neg hq]

/-- C2 amended: the add flow rejects any quantity outside the quantity
widget's bounds — in particular every non-positive quantity — leaving the
session state unchanged, and succeeds for every canonical category with a
quantity between the widget minimum 0.1 and (full variant) maximum 1000.0;
the AI variant has no upper bound. -/
theorem c2_record_validation (s : Store) (ts cat : Str) (q : ℚ) (d l : Str) :
    (q ≤ 0 →
      addWasteFull s ts cat q d l = .error .invalidInput ∧
      afterAddFull s ts cat q d l = s ∧
      addWasteAI s cat q d l = .error .invalidInput) ∧
    (1/10 ≤ q → q ≤ 1000 → cat ∈ canonicalKeys →
      addWasteFull s ts cat q d l =
        .ok (record s { timestamp := ts, category := cat, quantity := q,
                        description := d, location := l })) ∧
    (1/10 ≤ q → cat ∈ canonicalKeys →
      addWasteAI s cat q d l =
        .ok (record s { timestamp := [], category := cat, quantity := q,
                        description := d, location := l })) := by
  refine ⟨fun hq => ?_, fun h1 h2 h3 => ?_, fun h1 h2 => ?_⟩
  · have hlt : ¬((1 : ℚ)/10 ≤ q) := by intro h; linarith
    refine ⟨?_, ?_, ?_⟩
    · rw [addWasteFull, if_neg (by rintro ⟨h, -⟩; exact hlt h)]
    · rw [afterAddFull, addWasteFull, if_neg (by rintro ⟨h, -⟩; exact hlt h)]
    · rw [addWasteAI, if_neg (by rintro ⟨h, -⟩; exact hlt h)]
  · rw [addWasteFull, if_pos ⟨h1, h2, h3⟩]
  · rw [addWasteAI, if_pos ⟨h1, h2⟩]

theorem c2_record_validation_witness :
    addWasteFull initStore (str "t") (str "plastic") 2 [] [] =
      .ok (record initStore { timestamp := str "t", category := str "plastic",
                              quantity := 2, description := [], location := [] }) :=
  (c2_record_validation initStore (str "t") (str "plastic") 2 [] []).2.1
    (by norm_num) (by norm_num) (by decide)

/-!
## Claims C3, C4, C5, C10: AI response parsing
-/

/-- C3: the four per-field parsing examples — the well-formed three-line
reply parses to ("electronic", 87, ["phone", "charger"]); a reply without a
CONFIDENCE marker keeps confidence 0; a non-numeric CONFIDENCE value falls
back to 50; a non-canonical WASTE_TYPE value leaves the category "mixed". -/
theorem c3_parse_examples :
    parseResponse "WASTE_TYPE: Electronic\nCONFIDENCE: 87%\nITEMS: phone, charger"
        = { waste_type := str "electronic", confidence := 87,
            items := [str "phone", str "charger"] } ∧
    (parseResponse "WASTE_TYPE: plastic\nITEMS: cup").confidence = 0 ∧
    (parseResponse "CONFIDENCE: high").confidence = 50 ∧
    (parseResponse "WASTE_TYPE: metal").waste_type = str "mixed" := by decide

/-- C4 counterexample: the parser never clamps the confidence — the reply
`CONFIDENCE: 150` produces confidence 150, outside 0..100. -/
theorem c4_counterexample :
    (parseResponse "CONFIDENCE: 150").confidence = 150 ∧
    100 < (parseResponse "CONFIDENCE: 150").confidence := by decide

theorem parseLine_confidence (r : AIResult) (line : Str) :
    (parseLine r line).confidence = (lineConf line).getD r.confidence := by
  rw [parseLine, lineConf]
  by_cases h1 : containsSub line (str "WASTE_TYPE:") = true
  · simp only [h1, if_true, Option.getD_none]
    split <;> rfl
  · simp only [Bool.not_eq_true] at h1
    simp only [h1, Bool.false_eq_true, if_false]
    by_cases h2 : containsSub line (str "CONFIDENCE:") = true
    · simp only [h2, if_true]
      cases pyParseInt (rstripChar '%' (fieldRaw line)) <;> simp
    · simp only [Bool.not_eq_true] at h2
      simp only [h2, Bool.false_eq_true, if_false]
      by_cases h3 : containsSub line (str "ITEMS:") = true <;> simp [h3]

/-- C4 amended: the confidence of a parsed reply is an integer in 0..100
provided every line that sets the confidence sets it to a value in that range
(the initial default 0 and the parse-failure fallback 50 are always in
range); the code applies no clamping, so a reply whose CONFIDENCE value is an
out-of-range integer yields an out-of-range confidence. -/
theorem c4_confidence_range (text : String)
    (h : ∀ line ∈ splitOnChar '\n' (pyStrip text.data),
      ∀ n : Int, lineConf line = some n → 0 ≤ n ∧ n ≤ 100) :
    0 ≤ (parseResponse text).confidence ∧ (parseResponse text).confidence ≤ 100 := by
  have main : ∀ (lines : List Str) (r : AIResult),
      (∀ line ∈ lines, ∀ n : Int, lineConf line = some n → 0 ≤ n ∧ n ≤ 100) →
      0 ≤ r.confidence ∧ r.confidence ≤ 100 →
      0 ≤ (lines.foldl parseLine r).confidence ∧
        (lines.foldl parseLine r).confidence ≤ 100 := by
    intro lines
    induction lines with
    | nil => intro r _ hr; exact hr
    | cons l ls ih =>
      intro r hl hr
      rw [List.foldl_cons]
      refine ih (parseLine r l) (fun line hm => hl line (List.mem_cons_of_mem _ hm)) ?_
      rw [parseLine_confidence]
      cases hc : lineConf l with
      | none => simpa using hr
      | some n => simpa using hl l (List.mem_cons_self l ls) n hc
  exact main _ _ h ⟨le_refl 0, by norm_num⟩

theorem c4_confidence_range_witness :
    0 ≤ (parseResponse "CONFIDENCE: 87%").confidence ∧
      (parseResponse "CONFIDENCE: 87%").confidence ≤ 100 :=
  c4_confidence_range "CONFIDENCE: 87%"
    (by
      intro line hm n hn
      have hls : splitOnChar '\n' (pyStrip (String.data "CONFIDENCE: 87%"))
          = [str "CONFIDENCE: 87%"] := by decide
      rw [hls] at hm
      simp at hm
      subst hm
      rw [show lineConf (str "CONFIDENCE: 87%") = some 87 from by decide] at hn
      cases hn
      omega)

/-- The text strictly after the first occurrence of `c` (empty when `c` does
not occur) — the claim's reading of "the entire text after the first
colon". -/
def afterFirst (c : Char) (l : Str) : Str :=
  (l.dropWhile (fun x => !decide (x = c))).drop 1

/-- The text strictly before the first occurrence of `c`. -/
def upToFirst (c : Char) (l : Str) : Str :=
  l.takeWhile (fun x => !decide (x = c))

theorem splitOnChar_ne_nil (c : Char) (l : Str) : splitOnChar c l ≠ [] := by
  induction l with
  | nil => simp [splitOnChar]
  | cons x xs ih =>
    rw [splitOnChar]
    split
    · simp
    · cases h : splitOnChar c xs <;> simp

theorem splitOnChar_head (c : Char) (l : Str) :
    (splitOnChar c l).getD 0 [] = upToFirst c l := by
  induction l with
  | nil => rfl
  | cons x xs ih =>
    rw [splitOnChar, upToFirst]
    by_cases hx : x = c
    · simp [hx]
    · simp only [hx, if_false, List.takeWhile_cons]
      cases h : splitOnChar c xs with
      | nil => exact absurd h (splitOnChar_ne_nil c xs)
      | cons r rs =>
        rw [h] at ih
        simp only [List.getD_cons_zero] at ih
        simp [hx, ih, upToFirst]

theorem splitOnChar_getD_one (c : Char) (l : Str) :
    (splitOnChar c l).getD 1 [] = upToFirst c (afterFirst c l) := by
  induction l with
  | nil => rfl
  | cons x xs ih =>
    rw [splitOnChar]
    by_cases hx : x = c
    · simp only [hx, if_true]
      have : afterFirst c (c :: xs) = xs := by
        simp [afterFirst, List.dropWhile_cons]
      rw [this, List.getD_cons_succ, splitOnChar_head]
    · simp only [hx, if_false]
      have ha : afterFirst c (x :: xs) = afterFirst c xs := by
        simp [afterFirst, List.dropWhile_cons, hx]
      cases h : splitOnChar c xs with
      | nil => exact absurd h (splitOnChar_ne_nil c xs)
      | cons r rs =>
        rw [h] at ih
        simp only [List.getD_cons_succ] at ih ⊢
        rw [ha, ← ih]

/-- C5 counterexample: for the reply line `ITEMS: phone: old, charger` the
code extracts only the text between the first and second colons ("phone"),
not the entire text after the first colon, so the parsed items are
`["phone"]` and not the claim's `["phone: old", "charger"]`. -/
theorem c5_counterexample :
    (parseResponse "ITEMS: phone: old, charger").items = [str "phone"] ∧
    (splitOnChar ',' (pyStrip (afterFirst ':' (str "ITEMS: phone: old, charger")))).map
        pyStrip = [str "phone: old", str "charger"] ∧
    (parseResponse "ITEMS: phone: old, charger").items ≠
      (splitOnChar ',' (pyStrip (afterFirst ':' (str "ITEMS: phone: old, charger")))).map
        pyStrip := by decide

/-- C5 amended: the raw field value used by each of the three marker branches
(`line.split(':')[1].strip()`) is the text after the first colon of the line
*up to but not including the next colon*, trimmed; it equals the entire text
after the first colon only when that text contains no further colon. -/
theorem c5_field_extraction (line : Str) :
    fieldRaw line = pyStrip (upToFirst ':' (afterFirst ':' line)) := by
  rw [fieldRaw, splitOnChar_getD_one]

/-- C10: a reply whose ITEMS line has nothing after the colon parses to a
one-element items list containing the empty string — not an empty list; the
rendered item list then shows one empty bullet and the synthesized
description receives an empty joined item list. -/
theorem c10_empty_items_value :
    (parseResponse "ITEMS:").items = [str ""] ∧
    (parseResponse "ITEMS:").items ≠ [] ∧
    itemBullets (parseResponse "ITEMS:").items = [str "  📄 "] ∧
    joinSep (str ", ") (parseResponse "ITEMS:").items = str "" ∧
    aiDescription (parseResponse "ITEMS:").items (parseResponse "ITEMS:").confidence
        = str " (AI detected, 0% confidence)" := by decide

/-!
## Claim C6: most common category
-/

theorem foldl_max_init_le (f : Str → ℚ) (l : List Str) :
    ∀ a : ℚ, a ≤ l.foldl (fun x k => max x (f k)) a := by
  induction l with
  | nil => intro a; exact le_refl a
  | cons k ks ih =>
    intro a
    exact le_trans (le_max_left a (f k)) (ih (max a (f k)))

theorem foldl_max_mem_le (f : Str → ℚ) (l : List Str) :
    ∀ a : ℚ, ∀ k ∈ l, f k ≤ l.foldl (fun x k => max x (f k)) a := by
  induction l with
  | nil => intro a k hk; cases hk
  | cons j js ih =>
    intro a k hk
    rcases List.mem_cons.mp hk with h | h
    · subst h
      exact le_trans (le_max_right a (f k)) (foldl_max_init_le f js _)
    · exact ih _ k h

theorem firstMaxAux_step (f : Str → ℚ) (best k : Str) :
    f (if f best < f k then k else best) = max (f best) (f k) := by
  split
  · exact (max_eq_right (le_of_lt (by assumption))).symm
  · exact (max_eq_left (le_of_not_lt (by assumption))).symm

theorem firstMaxAux_val (f : Str → ℚ) (l : List Str) :
    ∀ best : Str,
      f (firstMaxAux f best l) = l.foldl (fun x k => max x (f k)) (f best) := by
  induction l with
  | nil => intro best; rfl
  | cons k ks ih =>
    intro best
    rw [firstMaxAux, List.foldl_cons, ih, firstMaxAux_step f best k]


theorem firstMaxAux_find (f : Str → ℚ) (l : List Str) :
    ∀ best : Str,
      (best :: l).find?
          (fun j => decide (f j = l.foldl (fun x k => max x (f k)) (f best)))
        = some (firstMaxAux f best l) := by
  induction l with
  | nil => intro best; simp [firstMaxAux]
  | cons k ks ih =>
    intro best
    rw [firstMaxAux, List.foldl_cons, ← firstMaxAux_step f best k]
    by_cases hc : f best < f k
    · simp only [if_pos hc]
      have hbest : ¬ (f best = ks.foldl (fun x j => max x (f j)) (f k)) := by
        intro h
        have hle : f k ≤ f best := h ▸ foldl_max_init_le f ks (f k)
        exact absurd hc (not_lt.mpr hle)
      rw [List.find?_cons_of_neg _ (by simpa using hbest)]
      exact ih k
    · simp only [if_neg hc]
      have hkb : f k ≤ f best := le_of_not_lt hc
      have ihb := ih best
      by_cases hb : f best = ks.foldl (fun x j => max x (f j)) (f best)
      · rw [List.find?_cons_of_pos _ (by simpa using hb)]
        rw [List.find?_cons_of_pos _ (by simpa using hb)] at ihb
        exact ihb
      · have hkM : ¬ (f k = ks.foldl (fun x j => max x (f j)) (f best)) := by
          intro h
          have hle : f best ≤ ks.foldl (fun x j => max x (f j)) (f best) :=
            foldl_max_init_le f ks (f best)
          have hlt : f best < ks.foldl (fun x j => max x (f j)) (f best) :=
            lt_of_le_of_ne hle hb
          rw [← h] at hlt
          exact absurd hkb (not_le.mpr hlt)
        rw [List.find?_cons_of_neg _ (by simpa using hb),
          List.find?_cons_of_neg _ (by simpa using hkM)]
        rw [List.find?_cons_of_neg _ (by simpa using hb)] at ihb
        exact ihb

/-- C6: for every non-empty session the Reports view computes its
most-common category as `max(stats, key=stats.get)`, which is the first key
in the canonical order (plastic, organic, reusable, hazardous, electronic,
mixed) whose aggregate total equals the maximum total — i.e. the key with
the largest total, ties broken by the earliest position in that order. -/
theorem c6_most_common (s : Store) (h : s.log ≠ []) :
    reportsView s = .report (totalStats s) s.log.length
        (most_common s.stats) (reportRows s) ∧
    claimMostCommon s.stats = some (most_common s.stats) ∧
    ∀ k ∈ canonicalKeys, s.stats k ≤ s.stats (most_common s.stats) := by
  refine ⟨?_, ?_, ?_⟩
  · rw [reportsView, if_neg (by simpa using h)]
  · simp only [claimMostCommon, most_common, maxTotal, canonicalKeys]
    exact firstMaxAux_find s.stats _ (str "plastic")
  · intro k hk
    rw [most_common, firstMaxAux_val s.stats
      [str "organic", str "reusable", str "hazardous", str "electronic", str "mixed"]
      (str "plastic")]
    have hk2 : k = str "plastic" ∨
        k ∈ [str "organic", str "reusable", str "hazardous",
             str "electronic", str "mixed"] := by
      simpa [canonicalKeys] using hk
    rcases hk2 with h1 | h1
    · subst h1
      exact foldl_max_init_le s.stats _ _
    · exact foldl_max_mem_le s.stats _ _ k h1

theorem c6_most_common_witness :
    claimMostCommon (runOps demoOps).stats
      = some (most_common (runOps demoOps).stats) :=
  (c6_most_common (runOps demoOps) (by decide)).2.1

/-!
## Claim C7: empty-state gating and division safety
-/

theorem sum_map_update (keys : List Str) (f : Str → ℚ) (c : Str) (q : ℚ) :
    keys.Nodup → c ∈ keys →
      (keys.map (fun k => if k = c then f k + q else f k)).sum
        = (keys.map f).sum + q := by
  induction keys with
  | nil => intro _ hc; cases hc
  | cons k ks ih =>
    intro hnd hc
    have hnd2 := List.nodup_cons.mp hnd
    rcases List.mem_cons.mp hc with h | h
    · subst h
      have hmap : ks.map (fun j => if j = c then f j + q else f j) = ks.map f := by
        refine List.map_congr_left ?_
        intro j hj
        rw [if_neg]
        intro hjc
        exact hnd2.1 (hjc ▸ hj)
      rw [List.map_cons, List.map_cons, List.sum_cons, List.sum_cons,
        if_pos rfl, hmap]
      ring
    · have hkc : ¬ (k = c) := by
        intro hkc
        exact hnd2.1 (hkc ▸ h)
      rw [List.map_cons, List.map_cons, List.sum_cons, List.sum_cons,
        if_neg hkc, ih hnd2.2 h]
      ring

theorem totalStats_record (s : Store) (e : Entry) (he : e.category ∈ canonicalKeys) :
    totalStats (record s e) = totalStats s + e.quantity := by
  have hnd : canonicalKeys.Nodup := by decide
  simpa [totalStats, record] using
    sum_map_update canonicalKeys s.stats e.category e.quantity hnd he

theorem totalStats_foldl (ops : List Entry) :
    ∀ s : Store, (∀ e ∈ ops, ValidEntry e) →
      totalStats (ops.foldl record s)
        = totalStats s + (ops.map Entry.quantity).sum := by
  induction ops with
  | nil => intro s _; simp
  | cons e rest ih =>
    intro s hv
    rw [List.foldl_cons,
      ih (record s e) (fun x hx => hv x (List.mem_cons_of_mem _ hx)),
      totalStats_record s e (hv e (List.mem_cons_self e rest)).1]
    simp
    ring

theorem sum_pos_of_mem_pos (l : List ℚ) :
    l ≠ [] → (∀ x ∈ l, 0 < x) → 0 < l.sum := by
  induction l with
  | nil => intro h _; exact absurd rfl h
  | cons x xs ih =>
    intro _ hp
    rw [List.sum_cons]
    rcases List.eq_nil_or_concat xs with h | h
    · subst h
      simpa using hp x (List.mem_cons_self x [])
    · have hxs : xs ≠ [] := by
        rcases h with ⟨a, b, rfl⟩
        simp
      have := ih hxs (fun y hy => hp y (List.mem_cons_of_mem _ hy))
      have hx := hp x (List.mem_cons_self x xs)
      linarith

/-- C7: with an empty log both the Statistics view and the Reports view
render only their empty state and compute no aggregates; with a non-empty
log (reachable by valid record calls) the total is strictly positive and
every row of the Reports analysis table carries the percentage
`amount / total * 100` with `total > 0`, so the division is never by
zero. -/
theorem c7_empty_gate_and_percentages (ops : List Entry)
    (hv : ∀ e ∈ ops, ValidEntry e) :
    ((runOps ops).log = [] →
      statsView (runOps ops) = .empty ∧ reportsView (runOps ops) = .empty) ∧
    ((runOps ops).log ≠ [] →
      0 < totalStats (runOps ops) ∧
      ∀ r ∈ reportRows (runOps ops),
        0 < r.2.1 ∧ r.2.2 = r.2.1 / totalStats (runOps ops) * 100) := by
  constructor
  · intro h
    constructor
    · rw [statsView, if_pos (by simpa using h)]
    · rw [reportsView, if_pos (by simpa using h)]
  · intro h
    have hops : ops ≠ [] := by
      intro hnil
      subst hnil
      exact h rfl
    have htot : 0 < totalStats (runOps ops) := by
      rw [runOps, totalStats_foldl ops initStore hv]
      have hinit : totalStats initStore = 0 := by
        simp [totalStats, initStore, canonicalKeys]
      rw [hinit, zero_add]
      refine sum_pos_of_mem_pos _ (by simpa using hops) ?_
      intro x hx
      rcases List.mem_map.mp hx with ⟨e, he, rfl⟩
      exact (hv e he).2
    refine ⟨htot, ?_⟩
    intro r hr
    rcases List.mem_filterMap.mp hr with ⟨k, _, hk⟩
    by_cases hpos : 0 < (runOps ops).stats k
    · rw [if_pos hpos] at hk
      cases hk
      exact ⟨hpos, rfl⟩
    · rw [if_neg hpos] at hk
      cases hk

theorem c7_empty_gate_and_percentages_witness :
    0 < totalStats (runOps demoOps) :=
  (((c7_empty_gate_and_percentages demoOps
      (by
        intro e he
        simp [demoOps] at he
        rcases he with h | h <;> subst h <;>
          exact ⟨by decide, by norm_num [Rat.divInt]⟩)).2) (by decide)).1

/-!
## Claim C8: the AI "Add to Log" entry
-/

theorem joinSep_mem_split (sep : Str) (items : List Str) (x : Str) :
    x ∈ items → ∃ a b, joinSep sep items = a ++ (x ++ b) := by
  induction items with
  | nil => intro hx; cases hx
  | cons y ys ih =>
    intro hx
    cases ys with
    | nil =>
      have hxy : x = y := by simpa using hx
      subst hxy
      exact ⟨[], [], by simp [joinSep]⟩
    | cons z zs =>
      rcases List.mem_cons.mp hx with h | h
      · subst h
        exact ⟨[], sep ++ joinSep sep (z :: zs), by simp [joinSep]⟩
      · rcases ih h with ⟨a, b, hab⟩
        exact ⟨y ++ sep ++ a, b, by simp [joinSep, hab]⟩

/-- C8: the entry committed by the AI "Add to Log" action always has quantity
exactly 1.0 and location the AI-origin sentinel `'AI Recognized'`, and its
description contains every detected item name and the decimal rendering of
the confidence percentage as substrings. -/
theorem c8_ai_commit (r : AIResult) (item : Str) (hm : item ∈ r.items) :
    (aiEntry r).quantity = 1 ∧
    (aiEntry r).location = str "AI Recognized" ∧
    (∃ a b, (aiEntry r).description = a ++ (item ++ b)) ∧
    (∃ a b, (aiEntry r).description = a ++ (intStr r.confidence ++ b)) := by
  refine ⟨rfl, rfl, ?_, ?_⟩
  · rcases joinSep_mem_split (str ", ") r.items item hm with ⟨a, b, hab⟩
    refine ⟨a, b ++ str " (AI detected, " ++ intStr r.confidence
      ++ str "% confidence)", ?_⟩
    show aiDescription r.items r.confidence = _
    rw [aiDescription, hab]
    simp
  · refine ⟨joinSep (str ", ") r.items ++ str " (AI detected, ",
      str "% confidence)", ?_⟩
    show aiDescription r.items r.confidence = _
    rw [aiDescription]
    simp

/-- The specification's example classification result: ("hazardous", 73,
["battery"]). -/
def demoAIResult : AIResult :=
  { waste_type := str "hazardous", confidence := 73, items := [str "battery"] }

theorem c8_ai_commit_witness :
    (aiEntry demoAIResult).quantity = 1 ∧
    (aiEntry demoAIResult).location = str "AI Recognized" ∧
    (∃ a b, (aiEntry demoAIResult).description = a ++ (str "battery" ++ b)) ∧
    (∃ a b, (aiEntry demoAIResult).description
        = a ++ (intStr demoAIResult.confidence ++ b)) :=
  c8_ai_commit demoAIResult (str "battery") (by decide)

/-!
## Claim C9: CSV round trip
-/

/-- A serialized field is always followed by a comma, a newline, or the end
of the document. -/
def RestOk (rest : Str) : Prop :=
  rest = [] ∨ (∃ t, rest = ',' :: t) ∨ (∃ t, rest = '\n' :: t)

theorem escQuotes_cons (c : Char) (f : Str) :
    escQuotes (c :: f) = (if c = '"' then ['"', '"'] else [c]) ++ escQuotes f := by
  simp [escQuotes]

theorem parseQF_esc (f : Str) :
    ∀ rest : Str, RestOk rest → parseQF (escQuotes f ++ '"' :: rest) = (f, rest) := by
  induction f with
  | nil =>
    intro rest hr
    rcases hr with h | ⟨t, h⟩ | ⟨t, h⟩ <;> subst h <;> simp [escQuotes, parseQF]
  | cons x f2 ih =>
    intro rest hr
    rw [escQuotes_cons]
    by_cases hx : x = '"'
    · subst hx
      show parseQF ('"' :: '"' :: (escQuotes f2 ++ '"' :: rest)) = _
      rw [parseQF]
      simp [ih rest hr]
    · rw [if_neg hx]
      have hne : escQuotes f2 ++ '"' :: rest ≠ [] := by simp
      cases h2 : escQuotes f2 ++ '"' :: rest with
      | nil => exact absurd h2 hne
      | cons y t =>
        rw [List.singleton_append, List.cons_append, parseQF.eq_def, h2]
        show (if x = '"' then
            if y = '"' then ('"' :: (parseQF t).1, (parseQF t).2) else ([], y :: t)
          else (x :: (parseQF (y :: t)).1, (parseQF (y :: t)).2)) = (x :: f2, rest)
        rw [if_neg hx, ← h2, ih rest hr]

theorem takeWhile_append_all (p : Char → Bool) (f r : Str)
    (h : ∀ c ∈ f, p c = true) :
    (f ++ r).takeWhile p = f ++ r.takeWhile p := by
  induction f with
  | nil => simp
  | cons c f2 ih =>
    rw [List.cons_append, List.takeWhile_cons,
      if_pos (h c (List.mem_cons_self c f2)),
      ih (fun d hd => h d (List.mem_cons_of_mem _ hd))]
    rfl

theorem dropWhile_append_all (p : Char → Bool) (f r : Str)
    (h : ∀ c ∈ f, p c = true) :
    (f ++ r).dropWhile p = r.dropWhile p := by
  induction f with
  | nil => simp
  | cons c f2 ih =>
    rw [List.cons_append, List.dropWhile_cons,
      if_pos (h c (List.mem_cons_self c f2)),
      ih (fun d hd => h d (List.mem_cons_of_mem _ hd))]

theorem needsQuote_false_mem {f : Str} (hf : needsQuote f = false) :
    ∀ c ∈ f, ¬ c = ',' ∧ ¬ c = '"' ∧ ¬ c = '\n' ∧ ¬ c = '\r' := by
  intro c hc
  rw [needsQuote, List.any_eq_false] at hf
  have := hf c hc
  simp at this
  exact ⟨this.1, this.2.1, this.2.2.1, this.2.2.2⟩

theorem restOk_takeWhile {rest : Str} (hr : RestOk rest) :
    rest.takeWhile notStop = [] ∧ rest.dropWhile notStop = rest := by
  rcases hr with h | ⟨t, h⟩ | ⟨t, h⟩ <;> subst h <;> simp [notStop]

theorem restOk_head {rest : Str} (hr : RestOk rest) :
    ¬ rest.head? = some '"' := by
  rcases hr with h | ⟨t, h⟩ | ⟨t, h⟩ <;> subst h <;> simp

theorem parseFld_ser (f : Str) :
    ∀ rest : Str, RestOk rest → parseFld (serField f ++ rest) = (f, rest) := by
  intro rest hr
  rw [serField]
  by_cases hq : needsQuote f = true
  · rw [if_pos hq]
    have hsh : ('"' :: escQuotes f ++ ['"']) ++ rest
        = '"' :: (escQuotes f ++ '"' :: rest) := by simp
    rw [hsh, parseFld, if_pos (by simp)]
    show parseQF (escQuotes f ++ '"' :: rest) = (f, rest)
    exact parseQF_esc f rest hr
  · rw [Bool.not_eq_true] at hq
    rw [if_neg (by rw [hq]; intro h; cases h)]
    have hmem := needsQuote_false_mem hq
    have hns : ∀ c ∈ f, notStop c = true := by
      intro c hc
      rcases hmem c hc with ⟨h1, -, h3, -⟩
      simp [notStop, h1, h3]
    have hhead : ¬ (f ++ rest).head? = some '"' := by
      cases f with
      | nil => simpa using restOk_head hr
      | cons c f2 =>
        rcases hmem c (List.mem_cons_self c f2) with ⟨-, h2, -, -⟩
        simpa using h2
    rw [parseFld, if_neg hhead, takeWhile_append_all notStop f rest hns,
      dropWhile_append_all notStop f rest hns,
      (restOk_takeWhile hr).1, (restOk_takeWhile hr).2, List.append_nil]

theorem serRow_cons2 (f g : Str) (r3 : List Str) :
    serRow (f :: g :: r3) = serField f ++ ',' :: serRow (g :: r3) := by
  rw [serRow, serRow, List.map_cons, joinSep]
  · simp
  · simp

theorem parseRowF_ser (r : List Str) :
    r ≠ [] → ∀ fuel, r.length ≤ fuel → ∀ rest,
      parseRowF fuel (serRow r ++ '\n' :: rest) = (r, rest) := by
  induction r with
  | nil => intro h; exact absurd rfl h
  | cons f r2 ih =>
    intro _ fuel hf rest
    cases fuel with
    | zero => simp at hf
    | succ u =>
      cases r2 with
      | nil =>
        have hsr : serRow [f] = serField f := by
          rw [serRow, List.map_cons, List.map_nil, joinSep]
        rw [hsr, parseRowF, parseFld_ser f ('\n' :: rest) (Or.inr (Or.inr ⟨rest, rfl⟩))]
        rfl
      | cons g r3 =>
        have hsh : serRow (f :: g :: r3) ++ '\n' :: rest
            = serField f ++ (',' :: (serRow (g :: r3) ++ '\n' :: rest)) := by
          rw [serRow_cons2]
          simp
        rw [hsh, parseRowF,
          parseFld_ser f (',' :: (serRow (g :: r3) ++ '\n' :: rest))
            (Or.inr (Or.inl ⟨serRow (g :: r3) ++ '\n' :: rest, rfl⟩))]
        show ((f :: (parseRowF u (serRow (g :: r3) ++ '\n' :: rest)).1,
          (parseRowF u (serRow (g :: r3) ++ '\n' :: rest)).2) : List Str × Str) = _
        rw [ih (by simp) u (by simp only [List.length_cons] at hf ⊢; omega) rest]

theorem joinSep_comma_length (l : List Str) :
    l.length ≤ (joinSep [','] l).length + 1 := by
  induction l with
  | nil => simp [joinSep]
  | cons x xs ih =>
    cases xs with
    | nil => simp [joinSep]
    | cons y ys =>
      rw [joinSep]
      · simp only [List.length_append, List.length_cons]
        simp only [List.length_cons] at ih
        omega
      · simp

theorem serRow_length (r : List Str) : r.length ≤ (serRow r).length + 1 := by
  have := joinSep_comma_length (r.map serField)
  simpa [serRow] using this

theorem serCsv_cons (r : List Str) (rows : List (List Str)) :
    serCsv (r :: rows) = serRow r ++ '\n' :: serCsv rows := by
  simp [serCsv]

theorem parseCsvF_ser (rows : List (List Str)) :
    (∀ r ∈ rows, r ≠ []) → ∀ fuel, (serCsv rows).length + 1 ≤ fuel →
      parseCsvF fuel (serCsv rows) = rows := by
  induction rows with
  | nil =>
    intro _ fuel _
    cases fuel <;> simp [serCsv, parseCsvF]
  | cons r rows2 ih =>
    intro hne fuel hf
    rw [serCsv_cons] at hf ⊢
    cases fuel with
    | zero => simp at hf
    | succ u =>
      have hlen : (serRow r ++ '\n' :: serCsv rows2).length
          = (serRow r).length + 1 + (serCsv rows2).length := by
        simp
        omega
      rw [parseCsvF, if_neg (by simp)]
      have hrow := serRow_length r
      rw [parseRowF_ser r (hne r (List.mem_cons_self r rows2)) (u + 1)
        (by rw [hlen] at hf; omega) (serCsv rows2)]
      show r :: parseCsvF u (serCsv rows2) = r :: rows2
      rw [ih (fun x hx => hne x (List.mem_cons_of_mem _ hx)) u
        (by rw [hlen] at hf; omega)]

theorem parseCsv_serCsv (rows : List (List Str)) (h : ∀ r ∈ rows, r ≠ []) :
    parseCsv (serCsv rows) = rows :=
  parseCsvF_ser rows h _ (Nat.le_refl _)

/-- The specification's example log entry, with a concrete timestamp. -/
def demoEntry : Entry :=
  { timestamp := str "2024-01-01 12:00:00", category := str "plastic",
    quantity := 2, description := str "bottle, used", location := str "kitchen" }

/-- C9: the CSV export has header `timestamp,category,quantity,description,
location`, one row per entry in insertion order, with standard minimal
quoting, and standard CSV re-parsing recovers every field value exactly for
every log; in particular the spec's one-entry example round-trips with the
embedded comma of the description intact. -/
theorem c9_csv_roundtrip :
    (∀ entries : List Entry,
      parseCsv (exportCsv entries) = headerRow :: entries.map entryRow) ∧
    serRow headerRow = str "timestamp,category,quantity,description,location" ∧
    parseCsv (exportCsv [demoEntry])
      = [headerRow,
         [str "2024-01-01 12:00:00", str "plastic", str "2.0",
          str "bottle, used", str "kitchen"]] := by
  have key : ∀ entries : List Entry,
      parseCsv (exportCsv entries) = headerRow :: entries.map entryRow := by
    intro entries
    rw [exportCsv]
    refine parseCsv_serCsv _ ?_
    intro r hr
    rcases List.mem_cons.mp hr with h | h
    · subst h
      simp [headerRow]
    · rcases List.mem_map.mp h with ⟨e, -, rfl⟩
      simp [entryRow]
  refine ⟨key, by decide, ?_⟩
  rw [key [demoEntry]]
  decide
